import Mathlib

set_option linter.unusedVariables false

/-!
Shallow embedding of the recgov availability engine (src/availability.py,
with the ConsecutiveDateSearch variant from src/test_availability_api.py).

Modelling conventions:
- a Python `datetime.date` is its `toordinal()` value, an integer, so two
  calendar dates are consecutive exactly when the integers differ by 1 and
  `d.weekday()` is `(d - 1) % 7` (ordinal 1 is Monday, January 1 of year 1);
- a Python `set` of dates is a `Finset ℤ`; where the code appends a set
  itself to an accumulator, the model appends its sorted element list;
- the availability index (a dict from date to site list) is a function
  `ℤ → Finset` of site identifiers at the points the code queries it;
- in-place mutation (`list.sort()`) is modelled by returning the post-call
  value of the mutated list alongside the ordinary return value;
- Python `None` is `Option.none`; a raised exception is `Except.error`.
-/

/-- Python `list.sort()` / `sorted(...)` on integer dates: ascending order. -/
def pySort (l : List ℤ) : List ℤ :=
  l.insertionSort (· ≤ ·)

/-- Python slice `l[s:e]` for 0 ≤ s, e (the only shapes the code uses). -/
def pySlice {α : Type} (l : List α) (s e : ℕ) : List α :=
  (l.drop s).take (e - s)

/-- Python `date.weekday()` on a `toordinal()` value: Monday = 0 .. Sunday = 6. -/
def weekday (d : ℤ) : ℤ :=
  (d - 1) % 7

/-- Loop of `find_sites` (availability.py lines 151-162): `sites` starts as
`None`, becomes the first date's site set, is intersected with each further
date's site set, and the whole call fails as soon as its size drops below
`num_sites`. -/
def find_sites_go {S : Type} [DecidableEq S] (availability : ℤ → Finset S) (num_sites : ℕ) :
    Option (Finset S) → List ℤ → Bool
  | _, [] => true
  | sites, d :: rest =>
    let sites_available := availability d
    let sites2 :=
      match sites with
      | none => sites_available
      | some s => s ∩ sites_available
    if sites2.card < num_sites then false
    else find_sites_go availability num_sites (some sites2) rest

/-- `find_sites(dates, availability, num_sites)` from availability.py. -/
def find_sites {S : Type} [DecidableEq S] (dates : List ℤ) (availability : ℤ → Finset S)
    (num_sites : ℕ) : Bool :=
  find_sites_go availability num_sites none dates

/-- The literal intersection of the per-date site sets over a date list
(empty on the empty list); the value `find_sites` effectively compares
against `num_sites`. -/
def inter_all {S : Type} [DecidableEq S] (dates : List ℤ) (availability : ℤ → Finset S) :
    Finset S :=
  match dates with
  | [] => ∅
  | d :: rest => rest.foldl (fun s d2 => s ∩ availability d2) (availability d)

/-- Loop of `consecutive` (availability.py lines 186-209), with the loop
variables `previous`, `start`, `end` (here `endi`), `current` and the
accumulated `runs` made explicit. -/
def consecutive_go (ds : List ℤ) (previous : Option ℤ) (start endi current : ℕ)
    (runs : List (ℕ × ℕ)) : List (ℕ × ℕ) :=
  match ds with
  | [] => runs ++ [(start, endi + 1)]
  | d :: rest =>
    match previous with
    | none => consecutive_go rest (some d) start endi (current + 1) runs
    | some p =>
      if 1 < d - p then
        consecutive_go rest (some d) current endi (current + 1) (runs ++ [(start, endi + 1)])
      else
        consecutive_go rest (some d) start current (current + 1) runs

/-- `consecutive(dates)` from availability.py. The Python function sorts its
argument list in place and returns index ranges; the model returns the
post-call (sorted) state of the caller's list together with the ranges. -/
def consecutive (dates : List ℤ) : List ℤ × List (ℕ × ℕ) :=
  let sorted := pySort dates
  (sorted, consecutive_go sorted none 0 0 0 [])

/-- Claim C1: for every finite list of distinct calendar dates, the index
ranges returned by `consecutive` would partition the sorted date list into
non-empty gap-free runs whose concatenation reproduces the sorted input.
The code violates this: on the dates 0, 1, 3 (three distinct dates, the
third two days after the second) it returns the ranges (0,2) and (2,2) —
the final single-element run gets the empty range (2,2) because the loop
variable `end` is not advanced when a new run is opened, so concatenating
the runs' dates yields [0, 1] and drops the date 3. -/
theorem consecutive_singleton_run_dropped :
    consecutive [0, 1, 3] = ([0, 1, 3], [(0, 2), (2, 2)]) ∧
    ((consecutive [0, 1, 3]).2.map
      (fun r => pySlice (consecutive [0, 1, 3]).1 r.1 r.2)).flatten = [0, 1] := by
  constructor
  · rfl
  · rfl

theorem foldl_inter_subset {S : Type} [DecidableEq S] (availability : ℤ → Finset S) :
    ∀ (l : List ℤ) (s : Finset S), l.foldl (fun a d => a ∩ availability d) s ⊆ s
  | [], _ => Finset.Subset.refl _
  | d :: rest, s =>
    Finset.Subset.trans (foldl_inter_subset availability rest (s ∩ availability d))
      (Finset.inter_subset_left)

theorem mem_foldl_inter {S : Type} [DecidableEq S] (availability : ℤ → Finset S) :
    ∀ (l : List ℤ) (s : Finset S) (x : S),
      x ∈ l.foldl (fun a d => a ∩ availability d) s ↔ x ∈ s ∧ ∀ d ∈ l, x ∈ availability d := by
  intro l
  induction l with
  | nil => intro s x; simp
  | cons d rest ih =>
    intro s x
    simp only [List.foldl_cons, ih, Finset.mem_inter, List.mem_cons]
    constructor
    · rintro ⟨⟨hs, hd⟩, hrest⟩
      exact ⟨hs, fun d2 h => h.elim (fun he => he ▸ hd) (hrest d2)⟩
    · rintro ⟨hs, hall⟩
      exact ⟨⟨hs, hall d (Or.inl rfl)⟩, fun d2 h => hall d2 (Or.inr h)⟩

theorem mem_inter_all {S : Type} [DecidableEq S] (availability : ℤ → Finset S)
    (dates : List ℤ) (hne : dates ≠ []) (x : S) :
    x ∈ inter_all dates availability ↔ ∀ d ∈ dates, x ∈ availability d := by
  match dates with
  | [] => exact absurd rfl hne
  | d :: rest =>
    simp only [inter_all, mem_foldl_inter, List.mem_cons]
    constructor
    · rintro ⟨hd, hrest⟩
      exact fun d2 h => h.elim (fun he => he ▸ hd) (hrest d2)
    · intro hall
      exact ⟨hall d (Or.inl rfl), fun d2 h => hall d2 (Or.inr h)⟩

theorem inter_all_perm {S : Type} [DecidableEq S] (availability : ℤ → Finset S)
    {dates dates2 : List ℤ} (hp : dates2.Perm dates) (hne : dates ≠ []) :
    inter_all dates2 availability = inter_all dates availability := by
  have hne2 : dates2 ≠ [] := by
    intro h
    exact hne (h ▸ hp).symm.eq_nil
  ext x
  rw [mem_inter_all availability dates2 hne2, mem_inter_all availability dates hne]
  constructor
  · intro h d hd
    exact h d (hp.mem_iff.mpr hd)
  · intro h d hd
    exact h d (hp.mem_iff.mp hd)

theorem find_sites_go_some {S : Type} [DecidableEq S] (availability : ℤ → Finset S) (k : ℕ) :
    ∀ (l : List ℤ) (s : Finset S), k ≤ s.card →
      (find_sites_go availability k (some s) l = true ↔
        k ≤ (l.foldl (fun a d => a ∩ availability d) s).card) := by
  intro l
  induction l with
  | nil =>
    intro s hs
    simp only [find_sites_go, List.foldl_nil]
    exact iff_of_true trivial hs
  | cons d rest ih =>
    intro s hs
    simp only [find_sites_go, List.foldl_cons]
    by_cases hlt : (s ∩ availability d).card < k
    · simp only [if_pos hlt]
      have hsub := foldl_inter_subset availability rest (s ∩ availability d)
      have : (rest.foldl (fun a d2 => a ∩ availability d2) (s ∩ availability d)).card
          ≤ (s ∩ availability d).card := Finset.card_le_card hsub
      constructor
      · intro h; exact absurd h (by simp)
      · intro h; omega
    · simp only [if_neg hlt]
      exact ih (s ∩ availability d) (le_of_not_lt hlt)

theorem find_sites_true_iff {S : Type} [DecidableEq S] (dates : List ℤ) (hne : dates ≠ [])
    (availability : ℤ → Finset S) (k : ℕ) :
    (find_sites dates availability k = true ↔ k ≤ (inter_all dates availability).card) := by
  match dates with
  | [] => exact absurd rfl hne
  | d :: rest =>
    simp only [find_sites, find_sites_go, inter_all]
    by_cases hlt : (availability d).card < k
    · simp only [if_pos hlt]
      have hsub := foldl_inter_subset availability rest (availability d)
      have := Finset.card_le_card hsub
      constructor
      · intro h; exact absurd h (by simp)
      · intro h; omega
    · simp only [if_neg hlt]
      exact find_sites_go_some availability k rest (availability d) (le_of_not_lt hlt)

/-- Claim C2: for a non-empty date collection, `find_sites` succeeds exactly
when the intersection of the per-date site sets has cardinality at least
`num_sites`; the boolean is therefore invariant under permutation of the
input, and it fails exactly when some non-empty prefix of the input already
has an intersection smaller than `num_sites`. -/
theorem find_sites_iff_intersection_card {S : Type} [DecidableEq S] (dates : List ℤ)
    (hne : dates ≠ []) (availability : ℤ → Finset S) (k : ℕ) :
    (find_sites dates availability k = true ↔ k ≤ (inter_all dates availability).card) ∧
    (∀ dates2 : List ℤ, dates2.Perm dates →
      find_sites dates2 availability k = find_sites dates availability k) ∧
    (find_sites dates availability k = false ↔
      ∃ p : List ℤ, p ≠ [] ∧ p <+: dates ∧ (inter_all p availability).card < k) := by
  refine ⟨find_sites_true_iff dates hne availability k, ?_, ?_⟩
  · intro dates2 hp
    have hne2 : dates2 ≠ [] := by
      intro h
      exact hne (h ▸ hp).symm.eq_nil
    have hiff1 := find_sites_true_iff dates hne availability k
    have hiff2 := find_sites_true_iff dates2 hne2 availability k
    have hsame : inter_all dates2 availability = inter_all dates availability :=
      inter_all_perm availability hp hne
    rw [Bool.eq_iff_iff, hiff1, hiff2, hsame]
  · rw [Bool.eq_false_iff, Ne, find_sites_true_iff dates hne availability k]
    constructor
    · intro h
      exact ⟨dates, hne, List.prefix_refl dates, lt_of_not_le h⟩
    · rintro ⟨p, hpne, hpre, hlt⟩ hk
      have hsub : inter_all dates availability ⊆ inter_all p availability := by
        intro x hx
        rw [mem_inter_all _ _ hpne]
        rw [mem_inter_all _ _ hne] at hx
        exact fun d hd => hx d (hpre.subset hd)
      have := Finset.card_le_card hsub
      omega

/-- Concrete instantiation of claim C2's theorem: two dates, site sets
{5, 7} and {5}, threshold 1 — the common site 5 makes `find_sites` succeed. -/
def wIdx : ℤ → Finset ℕ := fun d => if d = 0 then {5, 7} else {5}

theorem find_sites_iff_intersection_card_witness :
    ([0, 1] : List ℤ) ≠ [] ∧ find_sites [0, 1] wIdx 1 = true :=
  ⟨by decide,
   (find_sites_iff_intersection_card [0, 1] (by decide) wIdx 1).1.mpr (by decide)⟩

/-- Claim C10: `consecutive` sorts its input list in place — after the call
the caller's list (modelled by the first component of the result) is an
ascending permutation of the input — and the returned half-open ranges are
offsets into this mutated sorted list, not into the original ordering: on
the input [3, 0, 1] the first returned range (0, 2) selects [0, 1] from the
post-call list, a genuine consecutive pair, while the same range on the
original ordering would select [3, 0]. -/
theorem consecutive_sorts_in_place (dates : List ℤ) :
    ((consecutive dates).1.Perm dates ∧ (consecutive dates).1.Sorted (· ≤ ·)) ∧
    ((consecutive [3, 0, 1]).1 = [0, 1, 3] ∧
      (consecutive [3, 0, 1]).2 = [(0, 2), (2, 2)] ∧
      pySlice (consecutive [3, 0, 1]).1 0 2 = [0, 1] ∧
      pySlice [3, 0, 1] 0 2 = [3, 0]) := by
  refine ⟨⟨?_, ?_⟩, by constructor <;> first | rfl | exact ⟨rfl, rfl, rfl⟩⟩
  · exact List.perm_insertionSort (· ≤ ·) dates
  · exact List.sorted_insertionSort (· ≤ ·) dates

/-- State of a `MinimumStayLength` criterion (availability.py lines 63-113):
the configuration fields set in `__init__` plus the `_matches` accumulator.
A run arrives at `test` as a Python set of dates; the model passes the set
as a duplicate-free list of its elements (sets are built in `search` from
slices of the sorted distinct date list). The constructor's `ValueError`
when `first_night` and `first_week_day` are both set is a construction-time
guard; the parser below never trips it. -/
structure MinimumStayLength where
  _nights : ℕ
  _num_sites : ℕ
  _first_night : Option ℤ
  _first_week_day : ℤ
  _matches : List (List ℤ)

/-- The `found` / `first_index` loop inside `MinimumStayLength.test`
(availability.py lines 86-93): index of the first date in the list whose
weekday equals `w`, `none` when no date matches. -/
def first_week_day_scan (w : ℤ) : List ℤ → Option ℕ
  | [] => none
  | d :: rest =>
    if weekday d = w then some 0 else (first_week_day_scan w rest).map (· + 1)

theorem first_week_day_scan_none_iff (w : ℤ) :
    ∀ l : List ℤ, first_week_day_scan w l = none ↔ ∀ d ∈ l, weekday d ≠ w := by
  intro l
  induction l with
  | nil => simp [first_week_day_scan]
  | cons d rest ih =>
    by_cases hd : weekday d = w
    · simp [first_week_day_scan, hd]
    · simp only [first_week_day_scan, if_neg hd]
      rw [show ∀ o : Option ℕ, (o.map (· + 1) = none) = (o = none) from fun o => by
        cases o <;> simp]
      rw [ih]
      simp only [List.mem_cons]
      constructor
      · intro h e he
        exact he.elim (fun h2 => h2 ▸ hd) (h e)
      · intro h e he
        exact h e (Or.inr he)

theorem first_week_day_scan_spec (w : ℤ) :
    ∀ (l : List ℤ) (f : ℕ), first_week_day_scan w l = some f →
      f < l.length ∧ (∀ e ∈ l.take f, weekday e ≠ w) ∧
        ∃ d rest2, l.drop f = d :: rest2 ∧ weekday d = w := by
  intro l
  induction l with
  | nil => intro f h; exact Option.noConfusion h
  | cons d rest ih =>
    intro f h
    by_cases hd : weekday d = w
    · simp only [first_week_day_scan, if_pos hd] at h
      cases h
      exact ⟨by simp, by simp, d, rest, rfl, hd⟩
    · simp only [first_week_day_scan, if_neg hd] at h
      match hg : first_week_day_scan w rest with
      | none => rw [hg] at h; exact Option.noConfusion h
      | some g =>
        rw [hg] at h
        simp only [Option.map_some'] at h
        obtain ⟨hlt, htake, d2, rest2, hdrop, hwd⟩ := ih g hg
        cases h
        refine ⟨by simpa using hlt, ?_, d2, rest2, by simpa using hdrop, hwd⟩
        intro e he
        rw [List.take_succ_cons] at he
        rcases List.mem_cons.mp he with h1 | h2
        · exact h1 ▸ hd
        · exact htake e h2

/-- The spans (none or exactly one) that `MinimumStayLength.test`
(availability.py lines 77-101) appends to `self._matches` for a given run:
each path of the Python method either appends one candidate span or leaves
the accumulator alone, and touches no other field. `sorted(list(dates))` is
`pySort`; the slice `ordered[first_index:first_index + nights]` is
`pySlice`; `ordered[first_index:]` is `List.drop`. -/
def MinimumStayLength.test_span (self : MinimumStayLength) (dates : List ℤ) :
    List (List ℤ) :=
  match self._first_night with
  | some first_night =>
    if first_night ∉ dates then []
    else
      let ordered := pySort dates
      let ds := ordered.drop (ordered.indexOf first_night)
      if self._nights ≤ ds.length then [ds] else []
  | none =>
    if self._first_week_day ≠ -1 then
      let ordered := pySort dates
      match first_week_day_scan self._first_week_day ordered with
      | some first_index =>
        let ds := pySlice ordered first_index (first_index + self._nights)
        if self._nights ≤ ds.length then [ds] else []
      | none => []
    else
      if self._nights ≤ dates.length then [pySort dates] else []

/-- `MinimumStayLength.test` (availability.py lines 77-101): append the
candidate span, if any, to the accumulator. The method always returns
`True`, so only the updated state is modelled. -/
def MinimumStayLength.test (self : MinimumStayLength) (site_id : String) (dates : List ℤ) :
    MinimumStayLength :=
  { self with _matches := self._matches ++ self.test_span dates }

/-- `MinimumStayLength.matches` (availability.py lines 103-113). -/
def MinimumStayLength.matches (self : MinimumStayLength)
    (site_availability : ℤ → Finset String) : List ℤ :=
  if self._num_sites = 0 then self._matches.flatten
  else
    (self._matches.filter fun span =>
      find_sites span site_availability self._num_sites).flatten

/-- `MinimumStayLength.reset` (availability.py lines 74-75). -/
def MinimumStayLength.reset (self : MinimumStayLength) : MinimumStayLength :=
  { self with _matches := [] }

/-- Claim C8: an unrestricted `MinimumStayLength(nights)` (no `first_night`,
no `first_week_day`) applied to a run of L distinct dates records a span
exactly when L ≥ nights, and the recorded span is the entire run (its sorted
date list), not re-windowed to `nights` dates. -/
theorem minstay_unrestricted_records_whole_run (nights num_sites : ℕ) (dates : List ℤ)
    (hnodup : dates.Nodup) :
    (MinimumStayLength.test ⟨nights, num_sites, none, -1, []⟩ "dummy" dates)._matches =
      if nights ≤ dates.length then [pySort dates] else [] := by
  by_cases h : nights ≤ dates.length
  · simp [MinimumStayLength.test, MinimumStayLength.test_span, h]
  · simp [MinimumStayLength.test, MinimumStayLength.test_span, h]

/-- Concrete instantiation of claim C8's theorem: the 3-date run {5, 6, 7}
with nights = 2 records the whole run as the single span. -/
theorem minstay_unrestricted_records_whole_run_witness :
    (MinimumStayLength.test ⟨2, 0, none, -1, []⟩ "dummy" [7, 5, 6])._matches
        = if 2 ≤ ([7, 5, 6] : List ℤ).length then [pySort [7, 5, 6]] else [] :=
  minstay_unrestricted_records_whole_run 2 0 [7, 5, 6] (by decide)

theorem minstay_test_weekday_none (nights num_sites : ℕ) (w : ℤ) (hw : w ≠ -1)
    (dates : List ℤ) (hn : first_week_day_scan w (pySort dates) = none) :
    MinimumStayLength.test ⟨nights, num_sites, none, w, []⟩ "dummy" dates
      = ⟨nights, num_sites, none, w, []⟩ := by
  simp [MinimumStayLength.test, MinimumStayLength.test_span, if_pos hw, hn]

theorem minstay_test_weekday_some (nights num_sites : ℕ) (w : ℤ) (hw : w ≠ -1)
    (dates : List ℤ) (f : ℕ) (hf : first_week_day_scan w (pySort dates) = some f) :
    MinimumStayLength.test ⟨nights, num_sites, none, w, []⟩ "dummy" dates =
      if nights ≤ (pySlice (pySort dates) f (f + nights)).length then
        ⟨nights, num_sites, none, w, [pySlice (pySort dates) f (f + nights)]⟩
      else ⟨nights, num_sites, none, w, []⟩ := by
  simp only [MinimumStayLength.test, MinimumStayLength.test_span, if_pos hw, hf]
  by_cases hc : nights ≤ (pySlice (pySort dates) f (f + nights)).length
  · simp only [if_pos hc, List.nil_append]
  · simp only [if_neg hc, List.nil_append]

/-- Claim C3 (amended): for `MinimumStayLength(nights, firstWeekDay = w)`
(with `w ≠ -1`) applied to a run of distinct dates: if no date of the run
has weekday `w`, no span is recorded; if some date does, let `f` be the
position of the first such date in the sorted run (the code's scan; the
positions before `f` all hold other weekdays). When at least `nights` dates
remain from that date to the run's end the code records exactly one span —
the window of dates starting there, of length `min nights (L - f) = nights`
— but when fewer than `nights` remain, the truncated window fails the final
length test and NO span is recorded (the claim as stated asserted a span of
length `min(n, L - f)` is recorded in that case as well). -/
theorem minstay_weekday_span (nights num_sites : ℕ) (w : ℤ) (dates : List ℤ)
    (hnodup : dates.Nodup) (hw : w ≠ -1) :
    ((∀ d ∈ dates, weekday d ≠ w) →
      (MinimumStayLength.test ⟨nights, num_sites, none, w, []⟩ "dummy" dates)._matches = []) ∧
    (∀ f : ℕ, first_week_day_scan w (pySort dates) = some f →
      (∀ e ∈ (pySort dates).take f, weekday e ≠ w) ∧
      (∃ d rest2, (pySort dates).drop f = d :: rest2 ∧ weekday d = w) ∧
      (nights ≤ dates.length - f →
        ∃ span : List ℤ,
          (MinimumStayLength.test ⟨nights, num_sites, none, w, []⟩ "dummy" dates)._matches
              = [span] ∧
            span.length = min nights (dates.length - f) ∧ span.length = nights) ∧
      (dates.length - f < nights →
        (MinimumStayLength.test ⟨nights, num_sites, none, w, []⟩ "dummy" dates)._matches
            = [])) := by
  have hplen : (pySort dates).length = dates.length := by
    simp [pySort, (List.perm_insertionSort (· ≤ ·) dates).length_eq]
  constructor
  · intro habs
    have hnone : first_week_day_scan w (pySort dates) = none := by
      rw [first_week_day_scan_none_iff]
      intro d hd
      exact habs d ((List.perm_insertionSort (· ≤ ·) dates).mem_iff.mp hd)
    rw [minstay_test_weekday_none nights num_sites w hw dates hnone]
  · intro f hf
    obtain ⟨hflt, htake, hdr⟩ := first_week_day_scan_spec w _ f hf
    have hlen : (pySlice (pySort dates) f (f + nights)).length
        = min nights (dates.length - f) := by
      unfold pySlice
      rw [List.length_take, List.length_drop, hplen]
      congr 1
      omega
    refine ⟨htake, hdr, ?_, ?_⟩
    · intro hle
      have hcond : nights ≤ (pySlice (pySort dates) f (f + nights)).length := by
        rw [hlen]
        omega
      rw [minstay_test_weekday_some nights num_sites w hw dates f hf, if_pos hcond]
      exact ⟨pySlice (pySort dates) f (f + nights), rfl, hlen, by rw [hlen]; omega⟩
    · intro hlt2
      have hcond : ¬ nights ≤ (pySlice (pySort dates) f (f + nights)).length := by
        rw [hlen]
        omega
      rw [minstay_test_weekday_some nights num_sites w hw dates f hf, if_neg hcond]

/-- Claim C3 counterexample: with `nights = 3`, `firstWeekDay = 0` (Monday)
and the single-date run {1} (ordinal 1 is a Monday), the run contains a date
of the requested weekday, yet the code records NO span — the truncated
window [1] has length 1 < 3 and fails the `len(dates) >= nights` test —
while the claim as stated asserts exactly one recorded span, of length
`min 3 1 = 1`. -/
theorem minstay_weekday_truncated_not_recorded :
    (∃ d ∈ ([1] : List ℤ), weekday d = 0) ∧
    (MinimumStayLength.test ⟨3, 0, none, 0, []⟩ "dummy" ([1] : List ℤ))._matches = [] := by
  constructor
  · exact ⟨1, by decide, by decide⟩
  · decide

/-- Concrete instantiation of claim C3's amended theorem: nights = 2,
`firstWeekDay` = Monday, run {1, 2, 3} (Monday, Tuesday, Wednesday): exactly
one span is recorded, the 2-date window starting at the Monday. -/
theorem minstay_weekday_span_witness :
    ∃ span : List ℤ,
      (MinimumStayLength.test ⟨2, 0, none, 0, []⟩ "dummy" ([1, 2, 3] : List ℤ))._matches
          = [span] ∧
        span.length = min 2 (([1, 2, 3] : List ℤ).length - 0) ∧ span.length = 2 :=
  (((minstay_weekday_span 2 0 0 [1, 2, 3] (by decide) (by decide)).2 0 (by decide)).2.2).1
    (by decide)

/-- State of a `MaximumStayLength` criterion (availability.py lines 116-130):
`_max_nights` starts at -1 so any first run (even an empty one) becomes the
champion; `_max_dates` holds the champion run as handed to `test`. -/
structure MaximumStayLength where
  _max_nights : ℤ
  _max_dates : List ℤ
  _num_sites : ℕ

/-- `MaximumStayLength.test` (availability.py lines 126-130): strict `>`
comparison, so the first-seen run wins ties. -/
def MaximumStayLength.test (self : MaximumStayLength) (site_id : String) (dates : List ℤ) :
    MaximumStayLength :=
  if (dates.length : ℤ) > self._max_nights then
    { self with _max_nights := (dates.length : ℤ), _max_dates := dates }
  else self

/-- `MaximumStayLength.reset` (availability.py lines 122-124). -/
def MaximumStayLength.reset (self : MaximumStayLength) : MaximumStayLength :=
  { self with _max_nights := -1, _max_dates := [] }

/-- One iteration of the `for i in range(1, len(max_dates))` loop in
`MaximumStayLength.matches` (availability.py lines 142-147), acting on the
accumulator `(num_max_stays_for_sites, max_stays_for_sites)`. -/
def max_stays_step (max_dates : List ℤ) (availability : ℤ → Finset String)
    (num_sites : ℕ) (acc : ℤ × Option (List ℤ)) (i : ℕ) : ℤ × Option (List ℤ) :=
  let dates := max_dates.drop i
  if find_sites dates availability num_sites then
    if (dates.length : ℤ) > acc.1 then ((dates.length : ℤ), some dates) else acc
  else acc

/-- `MaximumStayLength.matches` (availability.py lines 132-148): returns
`some` of a date list, or `none` — the Python `None` that
`max_stays_for_sites` still holds when no suffix qualified. -/
def MaximumStayLength.matches (self : MaximumStayLength)
    (site_availability : ℤ → Finset String) : Option (List ℤ) :=
  if self._num_sites = 0 ∨ self._max_dates.length = 0 then some self._max_dates
  else
    let max_dates := pySort self._max_dates
    if find_sites max_dates site_availability self._num_sites then some max_dates
    else
      ((List.range' 1 (max_dates.length - 1)).foldl
        (max_stays_step max_dates site_availability self._num_sites)
        (-1, none)).2

theorem max_stays_foldl_keep (md : List ℤ) (availability : ℤ → Finset String) (k : ℕ)
    (m : ℤ) (v : Option (List ℤ)) :
    ∀ l : List ℕ, (∀ i ∈ l, ((md.drop i).length : ℤ) ≤ m) →
      l.foldl (max_stays_step md availability k) (m, v) = (m, v) := by
  intro l
  induction l with
  | nil => intro _; rfl
  | cons i rest ih =>
    intro h
    rw [List.foldl_cons]
    have hstep : max_stays_step md availability k (m, v) i = (m, v) := by
      unfold max_stays_step
      have hle := h i (List.mem_cons_self i rest)
      by_cases hq : find_sites (md.drop i) availability k
      · simp only [hq, if_true]
        rw [if_neg (by omega)]
      · simp [hq]
    rw [hstep]
    exact ih fun j hj => h j (List.mem_cons_of_mem i hj)

theorem max_stays_scan_eq_find (md : List ℤ) (availability : ℤ → Finset String) (k : ℕ) :
    ∀ (n s : ℕ),
      ((List.range' s n).foldl (max_stays_step md availability k) (-1, none)).2 =
        ((List.range' s n).find? fun i => find_sites (md.drop i) availability k).map
          (fun i => md.drop i) := by
  intro n
  induction n with
  | zero => intro s; rfl
  | succ n ih =>
    intro s
    have hr : List.range' s (n + 1) = s :: List.range' (s + 1) n := rfl
    rw [hr, List.foldl_cons]
    by_cases hq : find_sites (md.drop s) availability k
    · have hstep : max_stays_step md availability k (-1, none) s
          = (((md.drop s).length : ℤ), some (md.drop s)) := by
        unfold max_stays_step
        simp only [hq, if_true]
        rw [if_pos (by omega)]
      rw [hstep]
      rw [max_stays_foldl_keep md availability k _ _ _ ?_]
      · rw [List.find?_cons_of_pos _ (by simpa using hq)]
        rfl
      · intro i hi
        obtain ⟨h1, _⟩ := List.mem_range'_1.mp hi
        have : (md.drop i).length ≤ (md.drop s).length := by
          rw [List.length_drop, List.length_drop]
          omega
        exact_mod_cast this
    · have hstep : max_stays_step md availability k (-1, none) s = (-1, none) := by
        unfold max_stays_step
        simp [hq]
      rw [hstep, ih (s + 1)]
      rw [List.find?_cons_of_neg _ (by simpa using hq)]

theorem find?_range'_least (p : ℕ → Bool) :
    ∀ (n s i0 : ℕ), s ≤ i0 → i0 < s + n → p i0 = true →
      (∀ j, s ≤ j → j < i0 → p j = false) →
      (List.range' s n).find? p = some i0 := by
  intro n
  induction n with
  | zero => intro s i0 h1 h2 _ _; omega
  | succ n ih =>
    intro s i0 h1 h2 hp hmin
    have hr : List.range' s (n + 1) = s :: List.range' (s + 1) n := rfl
    rw [hr]
    by_cases hs : s = i0
    · rw [List.find?_cons_of_pos _ (hs ▸ hp)]
      rw [hs]
    · have hslt : s < i0 := lt_of_le_of_ne h1 hs
      rw [List.find?_cons_of_neg _ (by rw [hmin s le_rfl hslt]; exact Bool.false_ne_true)]
      exact ih (s + 1) i0 hslt (by omega) hp fun j hj1 hj2 => hmin j (by omega) hj2

/-- Claim C4 (amended): for `MaximumStayLength` with `num_sites = k > 0` and
a non-empty champion whose sorted dates `md` fail `find_sites` at `k`,
`matches` scans exactly the front-trimmed suffixes `md[i:]` for
i = 1 .. len-1: it returns `none` — the Python `None`, NOT an empty result
sequence, which is what the claim as stated asserted — exactly when no
suffix qualifies, and when `i0` is the first qualifying index it returns
the suffix `md[i0:]`, which is also the longest qualifying suffix (suffix
lengths strictly decrease in `i`, so the first found is the longest and
ties are impossible). -/
theorem maxstay_suffix_scan (k : ℕ) (hk : 0 < k) (max_dates : List ℤ)
    (hne : max_dates ≠ []) (availability : ℤ → Finset String)
    (hfail : find_sites (pySort max_dates) availability k = false) :
    (MaximumStayLength.matches ⟨(max_dates.length : ℤ), max_dates, k⟩ availability = none ↔
      ∀ i, 1 ≤ i → i < (pySort max_dates).length →
        find_sites ((pySort max_dates).drop i) availability k = false) ∧
    (∀ i0, 1 ≤ i0 → i0 < (pySort max_dates).length →
      find_sites ((pySort max_dates).drop i0) availability k = true →
      (∀ j, 1 ≤ j → j < i0 →
        find_sites ((pySort max_dates).drop j) availability k = false) →
      MaximumStayLength.matches ⟨(max_dates.length : ℤ), max_dates, k⟩ availability
          = some ((pySort max_dates).drop i0) ∧
        ∀ j, 1 ≤ j → j < (pySort max_dates).length →
          find_sites ((pySort max_dates).drop j) availability k = true →
          ((pySort max_dates).drop j).length ≤ ((pySort max_dates).drop i0).length) := by
  have hlen0 : max_dates.length ≠ 0 := fun h => hne (List.length_eq_zero.mp h)
  have hplen : (pySort max_dates).length = max_dates.length := by
    simp [pySort, (List.perm_insertionSort (· ≤ ·) max_dates).length_eq]
  have hor : ¬ (k = 0 ∨ max_dates.length = 0) := by
    rintro (h | h)
    · omega
    · exact hlen0 h
  have hmd : MaximumStayLength.matches ⟨(max_dates.length : ℤ), max_dates, k⟩ availability
      = ((List.range' 1 ((pySort max_dates).length - 1)).find?
          fun i => find_sites ((pySort max_dates).drop i) availability k).map
            (fun i => (pySort max_dates).drop i) := by
    simp only [MaximumStayLength.matches, if_neg hor, hfail, Bool.false_eq_true, if_false]
    exact max_stays_scan_eq_find (pySort max_dates) availability k
      ((pySort max_dates).length - 1) 1
  constructor
  · rw [hmd, Option.map_eq_none', List.find?_eq_none]
    constructor
    · intro h i h1 h2
      have hmem : i ∈ List.range' 1 ((pySort max_dates).length - 1) :=
        List.mem_range'_1.mpr ⟨h1, by omega⟩
      have := h i hmem
      simpa using this
    · intro h i hi
      obtain ⟨h1, h2⟩ := List.mem_range'_1.mp hi
      rw [h i h1 (by omega)]
      simp
  · intro i0 h1 h2 htrue hless
    have hfind : (List.range' 1 ((pySort max_dates).length - 1)).find?
        (fun i => find_sites ((pySort max_dates).drop i) availability k) = some i0 :=
      find?_range'_least _ ((pySort max_dates).length - 1) 1 i0 h1 (by omega) htrue
        (fun j hj1 hj2 => hless j hj1 hj2)
    refine ⟨by rw [hmd, hfind]; rfl, ?_⟩
    intro j hj1 hj2 hjq
    by_cases hcmp : j < i0
    · rw [hless j hj1 hcmp] at hjq
      exact absurd hjq (by simp)
    · push_neg at hcmp
      rw [List.length_drop, List.length_drop]
      omega

/-- Claim C4 counterexample: champion run {0, 1} (as the list [0, 1]),
num_sites = 1, and an availability index with no sites on any date: the
whole sorted range and the only suffix [1] both fail the site check, and
`matches` returns Python `None` (`Option.none`), not an empty result
sequence as the claim stated. -/
theorem maxstay_no_suffix_returns_none :
    MaximumStayLength.matches ⟨2, [0, 1], 1⟩ (fun _ => (∅ : Finset String)) = none ∧
    MaximumStayLength.matches ⟨2, [0, 1], 1⟩ (fun _ => (∅ : Finset String)) ≠ some [] := by
  constructor
  · decide
  · decide

/-- Concrete instantiation of claim C4's amended theorem: champion [0, 1],
num_sites = 1, site "A" available on date 1 only: the whole range fails, the
suffix [1] (first and only trimmed suffix) qualifies and is returned. -/
def wIdxA : ℤ → Finset String := fun d => if d = 1 then {"A"} else ∅

theorem maxstay_suffix_scan_witness :
    MaximumStayLength.matches ⟨2, [0, 1], 1⟩ wIdxA = some ((pySort [0, 1]).drop 1) :=
  ((maxstay_suffix_scan 1 (by decide) [0, 1] (by decide) wIdxA (by decide)).2 1 (by decide)
    (by decide) (by decide)
    (fun j hj1 hj2 => absurd (Nat.lt_of_le_of_lt hj1 hj2) (lt_irrefl 1))).1

/-- State of a `ConsecutiveDateSearch` criterion (test_availability_api.py
lines 131-148): the target date set `_dates` (modelled as the
duplicate-free list of dates given to the constructor), the `_matches`
accumulator, and `_num_sites`. -/
structure ConsecutiveDateSearch where
  _dates : List ℤ
  _matches : List ℤ
  _num_sites : ℕ

/-- `ConsecutiveDateSearch.test` (test_availability_api.py lines 137-140):
if the target set is a subset of the run's date set, extend the accumulator
with the target dates (not the whole run). -/
def ConsecutiveDateSearch.test (self : ConsecutiveDateSearch) (site_id : String)
    (dates : List ℤ) : ConsecutiveDateSearch :=
  if self._dates.all (· ∈ dates) then
    { self with _matches := self._matches ++ self._dates }
  else self

/-- `ConsecutiveDateSearch.matches` (test_availability_api.py lines
142-148). -/
def ConsecutiveDateSearch.matches (self : ConsecutiveDateSearch)
    (site_availability : ℤ → Finset String) : List ℤ :=
  if self._num_sites = 0 ∨ self._matches.length = 0 then self._matches
  else if find_sites self._matches site_availability self._num_sites then self._matches
  else []

/-- `date(2022, 9, 25).toordinal()` — 2022-09-25, a Sunday. -/
def sep25 : ℤ := 738423

/-- `date(2022, 9, 26).toordinal()` — 2022-09-26, a Monday. -/
def sep26 : ℤ := 738424

/-- Availability index of the claim C5 scenario: sites "001" and "002" both
open on 2022-09-25 and 2022-09-26 only. -/
def scenIdx : ℤ → Finset String :=
  fun d => if d = sep25 ∨ d = sep26 then {"001", "002"} else ∅

/-- Claim C5: `ConsecutiveDateSearch.matches` returns the accumulator
unchanged when `num_sites = 0` or the accumulator is empty; with
`num_sites = k > 0` and a non-empty accumulator it returns the accumulator
when `find_sites` grants at least `k` commonly-available sites and an empty
sequence otherwise (all-or-nothing). In the scenario — sites "001"/"002"
both open exactly on 2022-09-25 and 2022-09-26, a run of exactly those two
dates — the search for those dates returns both with `num_sites = 2` and
the empty sequence with `num_sites = 3`. -/
theorem consecutive_date_search_matches_spec (c : ConsecutiveDateSearch)
    (availability : ℤ → Finset String) :
    ((c._num_sites = 0 ∨ c._matches = []) → c.matches availability = c._matches) ∧
    (0 < c._num_sites → c._matches ≠ [] →
      find_sites c._matches availability c._num_sites = true →
      c.matches availability = c._matches) ∧
    (0 < c._num_sites → c._matches ≠ [] →
      find_sites c._matches availability c._num_sites = false →
      c.matches availability = []) ∧
    ((ConsecutiveDateSearch.test ⟨[sep25, sep26], [], 2⟩ "dummy"
        [sep25, sep26]).matches scenIdx = [sep25, sep26] ∧
      (ConsecutiveDateSearch.test ⟨[sep25, sep26], [], 3⟩ "dummy"
        [sep25, sep26]).matches scenIdx = []) := by
  refine ⟨?_, ?_, ?_, by decide, by decide⟩
  · rintro (h | h)
    · simp [ConsecutiveDateSearch.matches, h]
    · simp [ConsecutiveDateSearch.matches, h]
  · intro h1 h2 h3
    have hcond : ¬ (c._num_sites = 0 ∨ c._matches.length = 0) := by
      rintro (h | h)
      · omega
      · exact h2 (List.length_eq_zero.mp h)
    rw [ConsecutiveDateSearch.matches, if_neg hcond, if_pos h3]
  · intro h1 h2 h3
    have hcond : ¬ (c._num_sites = 0 ∨ c._matches.length = 0) := by
      rintro (h | h)
      · omega
      · exact h2 (List.length_eq_zero.mp h)
    rw [ConsecutiveDateSearch.matches, if_neg hcond]
    simp [h3]

/-- Concrete instantiation of claim C5's theorem: with `num_sites = 0` the
accumulator is returned unchanged. -/
theorem consecutive_date_search_matches_spec_witness :
    (⟨[], [], 0⟩ : ConsecutiveDateSearch).matches (fun _ => ∅) = [] :=
  (consecutive_date_search_matches_spec ⟨[], [], 0⟩ (fun _ => ∅)).1 (Or.inl rfl)

theorem minstay_reset_of_test (c : MinimumStayLength) (site_id : String)
    (dates : List ℤ) : (c.test site_id dates).reset = c.reset := rfl

theorem minstay_reset_idem (c : MinimumStayLength) :
    c.reset.reset = c.reset := rfl

theorem maxstay_reset_of_test (c : MaximumStayLength) (site_id : String)
    (dates : List ℤ) : (c.test site_id dates).reset = c.reset := by
  rw [MaximumStayLength.test]
  split_ifs <;> rfl

theorem maxstay_reset_idem (c : MaximumStayLength) :
    c.reset.reset = c.reset := rfl

mutual
/-- The availability.py criterion hierarchy: the two stateful leaves of
availability.py plus the `Stay` composite holding an ordered list of
children (availability.py lines 43-60). -/
inductive Criteria where
  | minStay (c : MinimumStayLength)
  | maxStay (c : MaximumStayLength)
  | stay (children : CriteriaList)

/-- The ordered children of a `Stay` composite. -/
inductive CriteriaList where
  | nil
  | cons (head : Criteria) (tail : CriteriaList)
end

mutual
/-- `Criteria.test` dispatch; `Stay.test` forwards to every child
unconditionally (availability.py lines 47-50). Every `test` returns `True`,
so only the state is modelled. -/
def Criteria.test : Criteria → String → List ℤ → Criteria
  | .minStay c, site_id, dates => .minStay (c.test site_id dates)
  | .maxStay c, site_id, dates => .maxStay (c.test site_id dates)
  | .stay cs, site_id, dates => .stay (CriteriaList.testAll cs site_id dates)

def CriteriaList.testAll : CriteriaList → String → List ℤ → CriteriaList
  | .nil, _, _ => .nil
  | .cons c cs, site_id, dates =>
    .cons (c.test site_id dates) (cs.testAll site_id dates)
end

mutual
/-- `Criteria.reset` dispatch; `Stay.reset` forwards to every child
(availability.py lines 58-60, 74-75, 122-124). -/
def Criteria.reset : Criteria → Criteria
  | .minStay c => .minStay c.reset
  | .maxStay c => .maxStay c.reset
  | .stay cs => .stay cs.resetAll

def CriteriaList.resetAll : CriteriaList → CriteriaList
  | .nil => .nil
  | .cons c cs => .cons c.reset cs.resetAll
end

mutual
/-- `Criteria.matches` dispatch; `Stay.matches` concatenates children's
results in declaration order (availability.py lines 52-56). A
`MaximumStayLength` child returning Python `None` would crash
`result.extend`; the model propagates `none` for that failure. -/
def Criteria.matches : Criteria → (ℤ → Finset String) → Option (List ℤ)
  | .minStay c, availability => some (c.matches availability)
  | .maxStay c, availability => c.matches availability
  | .stay cs, availability => cs.matchesAll availability

def CriteriaList.matchesAll : CriteriaList → (ℤ → Finset String) → Option (List ℤ)
  | .nil, _ => some []
  | .cons c cs, availability =>
    match c.matches availability, cs.matchesAll availability with
    | some r, some rs => some (r ++ rs)
    | _, _ => none
end

mutual
/-- Every accumulator in the tree holds its empty/initial value. -/
def Criteria.isReset : Criteria → Bool
  | .minStay c => c._matches.isEmpty
  | .maxStay c => c._max_nights == -1 && c._max_dates.isEmpty
  | .stay cs => cs.isResetAll

def CriteriaList.isResetAll : CriteriaList → Bool
  | .nil => true
  | .cons c cs => c.isReset && cs.isResetAll
end

mutual
theorem Criteria.reset_of_test : ∀ (c : Criteria) (site_id : String) (dates : List ℤ),
    (c.test site_id dates).reset = c.reset
  | .minStay c, s, ds => congrArg Criteria.minStay (minstay_reset_of_test c s ds)
  | .maxStay c, s, ds => congrArg Criteria.maxStay (maxstay_reset_of_test c s ds)
  | .stay cs, s, ds => congrArg Criteria.stay (CriteriaList.resetAll_testAll cs s ds)

theorem CriteriaList.resetAll_testAll : ∀ (cs : CriteriaList) (site_id : String)
    (dates : List ℤ), (cs.testAll site_id dates).resetAll = cs.resetAll
  | .nil, _, _ => rfl
  | .cons c cs, s, ds => by
    rw [CriteriaList.testAll, CriteriaList.resetAll, CriteriaList.resetAll,
      Criteria.reset_of_test c s ds, CriteriaList.resetAll_testAll cs s ds]
end

mutual
theorem Criteria.reset_idem : ∀ c : Criteria, c.reset.reset = c.reset
  | .minStay c => congrArg Criteria.minStay (minstay_reset_idem c)
  | .maxStay c => congrArg Criteria.maxStay (maxstay_reset_idem c)
  | .stay cs => congrArg Criteria.stay (CriteriaList.resetAll_idem cs)

theorem CriteriaList.resetAll_idem : ∀ cs : CriteriaList,
    cs.resetAll.resetAll = cs.resetAll
  | .nil => rfl
  | .cons c cs => by
    rw [CriteriaList.resetAll, CriteriaList.resetAll, Criteria.reset_idem c,
      CriteriaList.resetAll_idem cs]
end

mutual
theorem Criteria.isReset_reset : ∀ c : Criteria, (Criteria.reset c).isReset = true
  | .minStay c => by simp [Criteria.reset, Criteria.isReset, MinimumStayLength.reset]
  | .maxStay c => by simp [Criteria.reset, Criteria.isReset, MaximumStayLength.reset]
  | .stay cs => CriteriaList.isResetAll_resetAll cs

theorem CriteriaList.isResetAll_resetAll : ∀ cs : CriteriaList,
    cs.resetAll.isResetAll = true
  | .nil => rfl
  | .cons c cs => by
    rw [CriteriaList.resetAll, CriteriaList.isResetAll, Criteria.isReset_reset c,
      CriteriaList.isResetAll_resetAll cs]
    rfl
end

/-- `dict.setdefault(d, []).append(site_id)` on an insertion-ordered
association list: append the site to the date's entry, creating the entry
at the end if absent. -/
def dictAppend (al : List (ℤ × List String)) (d : ℤ) (site_id : String) :
    List (ℤ × List String) :=
  match al with
  | [] => [(d, [site_id])]
  | (k, v) :: rest =>
    if k = d then (k, v ++ [site_id]) :: rest
    else (k, v) :: dictAppend rest d site_id

/-- `index_by_date` (availability.py lines 176-183): the raw availability
(site id to its record's `availabilities` date list, in dict order) becomes
a date-to-sites mapping in first-encounter order. -/
def index_by_date (availability : List (String × List ℤ)) : List (ℤ × List String) :=
  availability.foldl
    (fun acc site_data => site_data.2.foldl (fun a d => dictAppend a d site_data.1) acc) []

/-- The dict lookup `availability[d]` performed by `find_sites` on the
index, as a function to the site set (an absent date gives the empty set;
in Python that lookup would raise `KeyError`, and `search` by construction
only queries present dates). -/
def idxFun (al : List (ℤ × List String)) : ℤ → Finset String :=
  fun d => (((al.find? fun e => e.1 == d).map Prod.snd).getD []).toFinset

/-- `search(availability, criteria)` (availability.py lines 165-173):
reset the criterion, build the index, sort the distinct dates and cut them
into runs with `consecutive` (which mutates the key list in place — the
slices are taken from the sorted list), feed every run to `test`, then
return `matches` against the index. -/
def search (availability : List (String × List ℤ)) (criteria : Criteria) :
    Option (List ℤ) :=
  let c0 := criteria.reset
  let available_dates := index_by_date availability
  let dates := available_dates.map Prod.fst
  let sorted_spans := consecutive dates
  let c1 := sorted_spans.2.foldl
    (fun c se => c.test "dummy" (pySlice sorted_spans.1 se.1 se.2)) c0
  c1.matches (idxFun available_dates)

/-- A sequence of prior operations on a criterion instance: `test` calls
and `reset` calls (a prior `search` performs a `reset` followed by `test`
calls; `matches` reads but never mutates state). -/
inductive CriteriaOp where
  | testOp (site_id : String) (dates : List ℤ)
  | resetOp

def Criteria.applyOps (c : Criteria) (ops : List CriteriaOp) : Criteria :=
  ops.foldl
    (fun c op =>
      match op with
      | .testOp s ds => c.test s ds
      | .resetOp => c.reset) c

/-- Claim C9: `reset` returns every internal accumulator of a criterion
tree (leaf or `Stay` composite, arbitrarily nested) to its empty/initial
value, and — since `search` invokes `criterion.reset()` before any `test`
call — the result of `search(availability, criterion)` is the same no
matter which `test`/`reset`/`search`-induced operations were previously
performed on the same criterion instance. -/
theorem criteria_reset_and_search_history_independent :
    (∀ c : Criteria, (Criteria.reset c).isReset = true) ∧
    (∀ (availability : List (String × List ℤ)) (c : Criteria) (ops : List CriteriaOp),
      search availability (c.applyOps ops) = search availability c) := by
  refine ⟨Criteria.isReset_reset, ?_⟩
  intro av c ops
  have hr : ∀ (ops : List CriteriaOp) (c : Criteria),
      (c.applyOps ops).reset = c.reset := by
    intro ops
    induction ops with
    | nil => intro c; rfl
    | cons op t ih =>
      intro c
      match op with
      | .testOp s ds =>
        have : Criteria.applyOps c (.testOp s ds :: t) = (c.test s ds).applyOps t := rfl
        rw [this, ih (c.test s ds), Criteria.reset_of_test]
      | .resetOp =>
        have : Criteria.applyOps c (.resetOp :: t) = c.reset.applyOps t := rfl
        rw [this, ih c.reset, Criteria.reset_idem]
  simp only [search, hr ops c]

def CriteriaList.ofList : List Criteria → CriteriaList
  | [] => .nil
  | c :: cs => .cons c (CriteriaList.ofList cs)

/-- Python `str.upper()` for the ASCII tokens the parser receives. -/
def pyUpper (s : String) : String := ⟨s.data.map Char.toUpper⟩

/-- `DAYS_OF_WEEK` (availability.py lines 212-213): `calendar.MONDAY = 0`
through `calendar.SUNDAY = 6`. -/
def DAYS_OF_WEEK : List (String × ℤ) :=
  [("MO", 0), ("TU", 1), ("WE", 2), ("TH", 3), ("FR", 4), ("SA", 5), ("SU", 6)]

/-- The token loop of `parse_search_options` (availability.py lines
222-240), parameterized by the external dateutil date parser `parseDate`
(`none` models `parse` raising `ParserError`, turned into the
`ValueError("Could not parse: ...")`). Falling off the loop with empty
`stays` models Python's implicit `None` return (unreachable for non-empty
token lists). -/
def parse_loop (parseDate : String → Option ℤ) (num_nights num_sites : ℕ)
    (stays : List MinimumStayLength) : List String → Except String (Option Criteria)
  | [] =>
    if stays.length > 0 then
      Except.ok (some (.stay (CriteriaList.ofList (stays.map Criteria.minStay))))
    else Except.ok none
  | date :: rest =>
    if date = "max" then Except.ok (some (.maxStay ⟨-1, [], num_sites⟩))
    else
      match DAYS_OF_WEEK.lookup (pyUpper date) with
      | some day =>
        parse_loop parseDate num_nights num_sites
          (stays ++ [⟨num_nights, num_sites, none, day, []⟩]) rest
      | none =>
        match parseDate date with
        | some parsed =>
          parse_loop parseDate num_nights num_sites
            (stays ++ [⟨num_nights, num_sites, some parsed, -1, []⟩]) rest
        | none => Except.error ("Could not parse: " ++ date)

/-- `parse_search_options` (availability.py lines 216-240). -/
def parse_search_options (parseDate : String → Option ℤ) (dates : List String)
    (num_nights : ℕ) (num_sites : ℕ) : Except String (Option Criteria) :=
  if dates.length = 0 then
    if num_nights = 0 then Except.error "No dates given and no nights requested."
    else Except.ok (some (.minStay ⟨num_nights, num_sites, none, -1, []⟩))
  else parse_loop parseDate num_nights num_sites [] dates

/-- The per-token `MinimumStayLength` the loop appends for a consumable
non-"max" token: weekday-restricted for a weekday code, first-night
restricted (via the external date parser) otherwise. -/
def token_criteria (parseDate : String → Option ℤ) (num_nights num_sites : ℕ)
    (t : String) : MinimumStayLength :=
  match DAYS_OF_WEEK.lookup (pyUpper t) with
  | some day => ⟨num_nights, num_sites, none, day, []⟩
  | none => ⟨num_nights, num_sites, some ((parseDate t).getD 0), -1, []⟩

/-- Claim C6 counterexample: a single consumed token yields a `Stay`
composite wrapping one `MinimumStayLength`, not that criterion directly —
the final `if len(stays) > 0: return Stay(*stays)` wraps unconditionally. -/
theorem parse_single_token_wrapped_in_stay :
    parse_search_options (fun _ => none) ["MO"] 2 1
        = Except.ok (some (.stay (.cons (.minStay ⟨2, 1, none, 0, []⟩) .nil))) ∧
    parse_search_options (fun _ => none) ["MO"] 2 1
        ≠ Except.ok (some (.minStay ⟨2, 1, none, 0, []⟩)) := by
  have he : parse_search_options (fun _ => none) ["MO"] 2 1
      = Except.ok (some (.stay (.cons (.minStay ⟨2, 1, none, 0, []⟩) .nil))) := rfl
  refine ⟨he, ?_⟩
  intro h
  rw [he] at h
  injection h with h1
  injection h1 with h2
  exact Criteria.noConfusion h2

/-- Claim C6 (amended): for every accepted token list (non-empty, no "max"
token, every token consumable as a weekday code or a parseable date) the
parser returns a `Stay` composite wrapping the per-token
`MinimumStayLength` criteria in token order — ALSO when exactly one token
was consumed (the claim as stated said a single consumed token yields its
criterion directly, unwrapped). -/
theorem parse_tokens_stay_composite (parseDate : String → Option ℤ)
    (tokens : List String) (num_nights num_sites : ℕ) (hne : tokens ≠ [])
    (hnomax : ∀ t ∈ tokens, t ≠ "max")
    (hok : ∀ t ∈ tokens, DAYS_OF_WEEK.lookup (pyUpper t) = none → parseDate t ≠ none) :
    parse_search_options parseDate tokens num_nights num_sites
      = Except.ok (some (.stay (CriteriaList.ofList
          (tokens.map fun t =>
            Criteria.minStay (token_criteria parseDate num_nights num_sites t))))) := by
  have hmain : ∀ (ts : List String) (stays : List MinimumStayLength),
      (∀ t ∈ ts, t ≠ "max") →
      (∀ t ∈ ts, DAYS_OF_WEEK.lookup (pyUpper t) = none → parseDate t ≠ none) →
      stays ≠ [] ∨ ts ≠ [] →
      parse_loop parseDate num_nights num_sites stays ts
        = Except.ok (some (.stay (CriteriaList.ofList
            ((stays ++ ts.map fun t =>
              token_criteria parseDate num_nights num_sites t).map
                Criteria.minStay)))) := by
    intro ts
    induction ts with
    | nil =>
      intro stays _ _ hd
      have hsne : stays ≠ [] := by
        rcases hd with h | h
        · exact h
        · exact absurd rfl h
      have hlen : stays.length > 0 := List.length_pos.mpr hsne
      simp [parse_loop, hlen]
    | cons t rest ih =>
      intro stays h1 h2 _
      have hi1 := fun x hx => h1 x (List.mem_cons_of_mem t hx)
      have hi2 := fun x hx => h2 x (List.mem_cons_of_mem t hx)
      rw [parse_loop]
      rw [if_neg (h1 t (List.mem_cons_self t rest))]
      rcases hl : DAYS_OF_WEEK.lookup (pyUpper t) with _ | day
      · rcases hp : parseDate t with _ | parsed
        · exact absurd hp (h2 t (List.mem_cons_self t rest) hl)
        · simp only [hl, hp]
          rw [ih _ hi1 hi2 (Or.inl (by simp))]
          simp [token_criteria, hl, hp, List.append_assoc]
      · simp only [hl]
        rw [ih _ hi1 hi2 (Or.inl (by simp))]
        simp [token_criteria, hl, List.append_assoc]
  have hne0 : ¬ tokens.length = 0 := fun h => hne (List.length_eq_zero.mp h)
  rw [parse_search_options, if_neg hne0]
  have := hmain tokens [] hnomax hok (Or.inr hne)
  simpa using this

/-- Concrete instantiation of claim C6's amended theorem: the two weekday
tokens "MO", "TU" produce a `Stay` of two weekday-restricted
`MinimumStayLength` criteria in token order. -/
theorem parse_tokens_stay_composite_witness :
    parse_search_options (fun _ => none) ["MO", "TU"] 2 1
      = Except.ok (some (.stay (CriteriaList.ofList
          (["MO", "TU"].map fun t =>
            Criteria.minStay (token_criteria (fun _ => none) 2 1 t))))) :=
  parse_tokens_stay_composite (fun _ => none) ["MO", "TU"] 2 1 (by decide)
    (by decide) (by decide)

/-- Claim C7 counterexample: a token dateutil cannot parse ("zzz", with the
external parser failing on it) placed BEFORE "max" raises
`ValueError("Could not parse: zzz")` — the parse never reaches "max", so
"max" does not discard unparseable earlier tokens, contrary to the claim's
"regardless of whether those other tokens are themselves parseable". -/
theorem parse_unparseable_before_max_raises :
    parse_search_options (fun _ => none) ["zzz", "max"] 1 1
        = Except.error "Could not parse: zzz" ∧
    parse_search_options (fun _ => none) ["zzz", "max"] 1 1
        ≠ Except.ok (some (.maxStay ⟨-1, [], 1⟩)) := by
  have he : parse_search_options (fun _ => none) ["zzz", "max"] 1 1
      = Except.error "Could not parse: zzz" := rfl
  refine ⟨he, ?_⟩
  intro h
  rw [he] at h
  exact Except.noConfusion h

/-- Claim C7 (amended): a literal "max" token (case-sensitive) short-circuits
the parse to `MaximumStayLength(num_sites)`, discarding every other token —
tokens after "max" whether parseable or not, tokens before "max" provided
each of them is consumable (a weekday code or a parseable date); an
unparseable token before "max" raises first (counterexample above). -/
theorem parse_max_short_circuit (parseDate : String → Option ℤ)
    (pre post : List String) (num_nights num_sites : ℕ)
    (hnomax : ∀ t ∈ pre, t ≠ "max")
    (hok : ∀ t ∈ pre, DAYS_OF_WEEK.lookup (pyUpper t) ≠ none ∨ parseDate t ≠ none) :
    parse_search_options parseDate (pre ++ "max" :: post) num_nights num_sites
      = Except.ok (some (.maxStay ⟨-1, [], num_sites⟩)) := by
  have hmain : ∀ (pre2 : List String) (stays : List MinimumStayLength),
      (∀ t ∈ pre2, t ≠ "max") →
      (∀ t ∈ pre2, DAYS_OF_WEEK.lookup (pyUpper t) ≠ none ∨ parseDate t ≠ none) →
      parse_loop parseDate num_nights num_sites stays (pre2 ++ "max" :: post)
        = Except.ok (some (.maxStay ⟨-1, [], num_sites⟩)) := by
    intro pre2
    induction pre2 with
    | nil =>
      intro stays _ _
      rw [List.nil_append, parse_loop]
      rw [if_pos rfl]
    | cons t rest ih =>
      intro stays h1 h2
      rw [List.cons_append, parse_loop]
      rw [if_neg (h1 t (List.mem_cons_self t rest))]
      have hi1 := fun x hx => h1 x (List.mem_cons_of_mem t hx)
      have hi2 := fun x hx => h2 x (List.mem_cons_of_mem t hx)
      rcases hl : DAYS_OF_WEEK.lookup (pyUpper t) with _ | day
      · rcases hp : parseDate t with _ | parsed
        · exfalso
          rcases h2 t (List.mem_cons_self t rest) with h | h
          · exact h hl
          · exact h hp
        · simp only [hl, hp]
          exact ih _ hi1 hi2
      · simp only [hl]
        exact ih _ hi1 hi2
  have hne0 : ¬ (pre ++ "max" :: post).length = 0 := by simp
  rw [parse_search_options, if_neg hne0]
  exact hmain pre [] hnomax hok

/-- Concrete instantiation of claim C7's amended theorem: a parseable
weekday token before "max" and an unparseable token after it; the result is
the bare `MaximumStayLength`. -/
theorem parse_max_short_circuit_witness :
    parse_search_options (fun _ => none) (["MO"] ++ "max" :: ["zzz"]) 1 1
      = Except.ok (some (.maxStay ⟨-1, [], 1⟩)) :=
  parse_max_short_circuit (fun _ => none) ["MO"] ["zzz"] 1 1 (by decide) (by decide)
